import Mathlib

/-!
Verification of the `DataScrubber` component of the analytics project
(`src/analytics_project/utils/data_scrubber.py`).

The pandas `DataFrame` owned by a scrubber is modelled row-major: a list of
column names (`header`) and a list of rows, each row a list of cell values
aligned with the header.  A cell is a `Value`: the pandas null marker
(NaN/NaT), an integer, a string, or a parsed datetime.  Each `DataScrubber`
method becomes a Lean function on `DF`; methods that raise return
`Except DataError _` (or a `DF × Option DataError` pair when the claim under
study speaks about the state left behind on failure).  Construction-time
aliasing is studied over a small explicit heap of data frames, since the
pure `DF` value cannot itself express sharing.
-/

/-- A cell of a data frame: pandas null marker (NaN/NaT), an integer, a
string, or a parsed datetime (encoded as an integer ordinal). -/
inductive Value where
  | vnull
  | vint (n : Int)
  | vstr (s : String)
  | vdate (d : Int)
deriving DecidableEq, Repr

/-- A data frame: named columns and rows of cells aligned with the header. -/
structure DF where
  header : List String
  rows : List (List Value)
deriving DecidableEq, Repr

/-- The error kinds of the spec: `ColumnNotFoundError` (the `ValueError`
raised by per-column operations on a missing column), `DataIntegrityError`
(the failed `assert` of the post-cleaning consistency check), and
`ConversionError` (a value that cannot be converted/parsed). -/
inductive DataError where
  | columnNotFound (column : String)
  | dataIntegrity (msg : String)
  | conversionError (column : String)
deriving DecidableEq, Repr

deriving instance DecidableEq for Except

/-- `str.strip()` on the character list: drop whitespace at both ends. -/
def trimChars (cs : List Char) : List Char :=
  ((cs.dropWhile Char.isWhitespace).reverse.dropWhile Char.isWhitespace).reverse

/-- `str.strip()`. -/
def trimStr (s : String) : String :=
  String.mk (trimChars s.data)

/-- `str.lower()`. -/
def lowerStr (s : String) : String :=
  String.mk (s.data.map Char.toLower)

/-- `str.upper()`. -/
def upperStr (s : String) : String :=
  String.mk (s.data.map Char.toUpper)

/-- Position of a column name in a header (`df.columns.get_loc`, leftmost). -/
def colIdx : List String → String → Option Nat
  | [], _ => none
  | h :: t, c => if h = c then some 0 else (colIdx t c).map (· + 1)

/-- The cell of row `r` in column position `i` (null past the end). -/
def cellAt (r : List Value) (i : Nat) : Value :=
  r.getD i .vnull

/-- Is a cell the null marker (`isnull`)? -/
def isNullV : Value → Bool
  | .vnull => true
  | _ => false

/-- Is a cell an integer? -/
def isIntV : Value → Bool
  | .vint _ => true
  | _ => false

/-- `astype(str)` on one cell: pandas renders NaN as the string `"nan"`. -/
def stringifyV : Value → String
  | .vnull => "nan"
  | .vint n => toString n
  | .vstr s => s
  | .vdate d => toString d

/-- One cell of `.astype(str).str.lower().str.strip()`. -/
def lowerTrimVal (v : Value) : Value :=
  .vstr (trimStr (lowerStr (stringifyV v)))

/-- One cell of `.astype(str).str.upper().str.strip()`. -/
def upperTrimVal (v : Value) : Value :=
  .vstr (trimStr (upperStr (stringifyV v)))

/-- Replace every cell of column position `i` by `f` of it. -/
def mapRowsAt (rows : List (List Value)) (i : Nat) (f : Value → Value) :
    List (List Value) :=
  rows.map (fun r => r.set i (f (cellAt r i)))

/-- All cells of the column at position `i`, top to bottom. -/
def colCells (df : DF) (i : Nat) : List Value :=
  df.rows.map (fun r => cellAt r i)

/-- `Series >= bound` on one cell: true only for an integer at least the
bound; comparison against the null marker is false. -/
def cmpGe (v : Value) (b : Int) : Bool :=
  match v with
  | .vint n => b ≤ n
  | _ => false

/-- `Series <= bound` on one cell. -/
def cmpLe (v : Value) (b : Int) : Bool :=
  match v with
  | .vint n => n ≤ b
  | _ => false

/-- `drop_duplicates()` row semantics (pandas `keep="first"`): scan the
rows in order carrying the set of rows already seen; keep a row exactly
when it has not appeared before. -/
def dedupSeen (seen : List (List Value)) : List (List Value) → List (List Value)
  | [] => []
  | r :: rs => if r ∈ seen then dedupSeen seen rs
               else r :: dedupSeen (r :: seen) rs

/-- `drop_duplicates()` over a whole frame's rows. -/
def dedupRows (rows : List (List Value)) : List (List Value) :=
  dedupSeen [] rows

/-- Alternative reading of deduplication, in the words of the spec: each
row is kept and its later exact copies are removed. -/
def removeLaterDups : List (List Value) → List (List Value)
  | [] => []
  | r :: rs => r :: removeLaterDups (rs.filter (fun x => x ≠ r))
termination_by l => l.length
decreasing_by
  simp only [List.length_cons]
  exact Nat.lt_succ_of_le (List.length_filter_le _ _)

/-- `duplicated().sum()`: the number of rows equal to some earlier row. -/
def dupCountAux (seen : List (List Value)) : List (List Value) → Nat
  | [] => 0
  | r :: rs => (if r ∈ seen then 1 else 0) + dupCountAux (r :: seen) rs

/-- `self.df.duplicated().sum()`. -/
def dupCount (rows : List (List Value)) : Nat :=
  dupCountAux [] rows

/-- `self.df.isnull().sum()`: per-column counts of null cells. -/
def nullCountsOf (df : DF) : List Nat :=
  (List.range df.header.length).map
    (fun i => df.rows.countP (fun r => isNullV (cellAt r i)))

namespace DataScrubber

/-- `remove_duplicate_records`: `self.df = self.df.drop_duplicates()`. -/
def remove_duplicate_records (df : DF) : DF :=
  { df with rows := dedupRows df.rows }

/-- `handle_missing_data(drop, fill_value)`: drop rows holding any null if
`drop`, else fill every null with `fill_value` when one is given. -/
def handle_missing_data (df : DF) (drop : Bool) (fill_value : Option Value) : DF :=
  if drop then
    { df with rows := df.rows.filter (fun r => r.all (fun v => !(isNullV v))) }
  else
    match fill_value with
    | some w => { df with rows := df.rows.map (fun r => r.map (fun v => if isNullV v then w else v)) }
    | none => df

/-- `check_data_consistency_after_cleaning`: computes the null-count and
duplicate-row snapshot, then asserts both totals are zero.  Returns the
state left behind together with the snapshot or the failed assertion. -/
def check_data_consistency_after_cleaning (df : DF) :
    DF × Except DataError (List Nat × Nat) :=
  if (nullCountsOf df).sum ≠ 0 then
    (df, .error (.dataIntegrity "Data still contains null values after cleaning."))
  else if dupCount df.rows ≠ 0 then
    (df, .error (.dataIntegrity "Data still contains duplicate records after cleaning."))
  else
    (df, .ok (nullCountsOf df, dupCount df.rows))

/-- `drop_columns(columns)`: first loop over `columns` raising on the first
one absent from the frame, then drop every column whose name is listed.
Returns the state left behind together with the error, if any. -/
def drop_columns (df : DF) (columns : List String) : DF × Option DataError :=
  match columns.find? (fun c => !(df.header.contains c)) with
  | some c => (df, some (.columnNotFound c))
  | none =>
      ({ header := df.header.filter (fun n => !(columns.contains n)),
         rows := df.rows.map (fun r =>
           ((df.header.zip r).filter (fun p => !(columns.contains p.1))).map Prod.snd) },
       none)

/-- `filter_column_outliers(column, lower_bound, upper_bound)`:
`self.df = self.df[(self.df[column] >= lower_bound) & (self.df[column] <= upper_bound)]`. -/
def filter_column_outliers (df : DF) (column : String)
    (lower_bound upper_bound : Int) : Except DataError DF :=
  match colIdx df.header column with
  | none => .error (.columnNotFound column)
  | some i =>
      .ok { df with rows := df.rows.filter (fun r =>
              cmpGe (cellAt r i) lower_bound && cmpLe (cellAt r i) upper_bound) }

/-- `format_column_strings_to_lower_and_trim(column)`:
`self.df[column].str.lower().str.strip()` (no stringification first; on a
non-string cell the pandas `.str` accessor yields the null marker). -/
def format_column_strings_to_lower_and_trim (df : DF) (column : String) :
    Except DataError DF :=
  match colIdx df.header column with
  | none => .error (.columnNotFound column)
  | some i =>
      .ok { df with rows := mapRowsAt df.rows i (fun v =>
              match v with
              | .vstr s => .vstr (trimStr (lowerStr s))
              | _ => .vnull) }

/-- `format_column_strings_to_upper_and_trim(column)`:
`self.df[column].astype(str).str.upper().str.strip()`. -/
def format_column_strings_to_upper_and_trim (df : DF) (column : String) :
    Except DataError DF :=
  match colIdx df.header column with
  | none => .error (.columnNotFound column)
  | some i =>
      .ok { df with rows := mapRowsAt df.rows i upperTrimVal }

/-- `rename_columns(column_mapping)`: loop over the mapping raising on the
first old name absent, then `self.df.rename(columns=column_mapping)` —
every column whose name is a key of the mapping is relabelled.  No check
on the resulting names is performed. -/
def rename_columns (df : DF) (column_mapping : List (String × String)) :
    Except DataError DF :=
  match column_mapping.find? (fun p => !(df.header.contains p.1)) with
  | some p => .error (.columnNotFound p.1)
  | none =>
      .ok { df with header := df.header.map (fun n =>
              (column_mapping.lookup n).getD n) }

/-- `reorder_columns(columns)`: loop over `columns` raising on the first
one absent, then `self.df = self.df[columns]` — the frame restricted to
exactly the listed columns, in the listed order. -/
def reorder_columns (df : DF) (columns : List String) : Except DataError DF :=
  match columns.find? (fun c => !(df.header.contains c)) with
  | some c => .error (.columnNotFound c)
  | none =>
      .ok { header := columns,
            rows := df.rows.map (fun r => columns.map (fun c =>
              match colIdx df.header c with
              | some i => cellAt r i
              | none => .vnull)) }

end DataScrubber

/-- Split a character list on a separator character. -/
def splitOnChar (sep : Char) : List Char → List (List Char)
  | [] => [[]]
  | c :: cs =>
      let r := splitOnChar sep cs
      if c = sep then [] :: r
      else
        match r with
        | [] => [[c]]
        | g :: gs => (c :: g) :: gs

/-- Read a nonempty all-digit character list as a natural number
(`str.toNat?` semantics). -/
def natOfDigits? (cs : List Char) : Option Nat :=
  if cs ≠ [] ∧ cs.all Char.isDigit then
    some (cs.foldl (fun a c => a * 10 + (c.toNat - 48)) 0)
  else none

/-- Model of `pd.to_datetime` on an ISO `"YYYY-MM-DD"` string: the parsed
date encoded as `y*10000 + m*100 + d`, or `none` when parsing raises. -/
def parseDateString (s : String) : Option Int :=
  match (splitOnChar (Char.ofNat 45) s.data).map natOfDigits? with
  | [some yn, some mn, some dn] =>
      if 1 ≤ mn ∧ mn ≤ 12 ∧ 1 ≤ dn ∧ dn ≤ 31 then
        some ((yn : Int) * 10000 + mn * 100 + dn)
      else none
  | _ => none

/-- Model of `pd.to_datetime` on one cell: `none` means the call raises.
A null cell parses to the null datetime `NaT` without error, a number is
accepted as an epoch offset, a datetime passes through, and a string
parses or raises. -/
def parseDateV : Value → Option Value
  | .vnull => some .vnull
  | .vint n => some (.vdate n)
  | .vdate d => some (.vdate d)
  | .vstr s => (parseDateString s).map .vdate

/-- `pd.to_datetime(..., errors="coerce")` on one cell: an unparsable
value becomes the null marker instead of raising. -/
def coerceDateV (v : Value) : Value :=
  (parseDateV v).getD .vnull

/-- `self.df[name] = vals`: overwrite the column when the label exists,
otherwise append it on the right. -/
def setCol (df : DF) (name : String) (vals : List Value) : DF :=
  match colIdx df.header name with
  | some i => { df with rows := (df.rows.zip vals).map (fun p => p.1.set i p.2) }
  | none => { header := df.header ++ [name],
              rows := (df.rows.zip vals).map (fun p => p.1 ++ [p.2]) }

/-- `self.df[col] = f(self.df[col])` guarded by `if col in self.df.columns`:
map the named column through `f`, and silently skip a missing column. -/
def mapColByName (df : DF) (col : String) (f : Value → Value) : DF :=
  match colIdx df.header col with
  | some i => { df with rows := mapRowsAt df.rows i f }
  | none => df

/-- The lowercase step of `clean_data` over a whole column list: the fold
of the guarded per-column lowercase+trim over the listed columns. -/
def lowerFold (ls : List String) (d : DF) : DF :=
  ls.foldl (fun d c => mapColByName d c lowerTrimVal) d

namespace DataScrubber

/-- `parse_dates_to_add_standard_datetime(column)`:
`self.df['StandardDateTime'] = pd.to_datetime(self.df[column])` — no
`errors="coerce"`, so an unparsable value raises instead of becoming null. -/
def parse_dates_to_add_standard_datetime (df : DF) (column : String) :
    Except DataError DF :=
  match colIdx df.header column with
  | none => .error (.columnNotFound column)
  | some i =>
      let parsed := (colCells df i).map parseDateV
      if parsed.all Option.isSome then
        .ok (setCol df "StandardDateTime" (parsed.map (fun o => o.getD .vnull)))
      else
        .error (.conversionError column)

/-- `clean_data(...)`: the composite pipeline — dedupe, missing-data
handling, lowercase+trim and uppercase+trim over the listed columns that
exist (missing ones silently skipped), in-place date coercion over the
listed date columns that exist, then an attempted rename whose
`ValueError` is swallowed. -/
def clean_data (df : DF) (drop_duplicates drop_na : Bool)
    (fill_value : Option Value)
    (string_lower string_upper date_columns : List String)
    (rename_map : List (String × String)) : DF :=
  let df1 := if drop_duplicates then remove_duplicate_records df else df
  let df2 := if drop_na then handle_missing_data df1 true none
             else match fill_value with
                  | some _ => handle_missing_data df1 false fill_value
                  | none => df1
  let df3 := string_lower.foldl (fun d c => mapColByName d c lowerTrimVal) df2
  let df4 := string_upper.foldl (fun d c => mapColByName d c upperTrimVal) df3
  let df5 := date_columns.foldl (fun d c => mapColByName d c coerceDateV) df4
  if rename_map.isEmpty then df5
  else
    match rename_columns df5 rename_map with
    | .ok d => d
    | .error _ => df5

end DataScrubber

/-! ### Heap model for construction-time ownership

A pure `DF` value cannot express Python aliasing, so `DataScrubber.__init__`
is studied over an explicit heap of data frames: references are indices,
the caller's frame lives at one reference, and the constructor allocates a
fresh cell for the scrubber's owned copy.  An implementation that stored
the caller's reference itself would return the same reference and the
independence theorem would fail. -/

/-- A heap of data frames; a reference is an index into it. -/
abbrev Heap := List DF

/-- The empty data frame, used as the out-of-range default. -/
def emptyDF : DF := { header := [], rows := [] }

/-- Dereference a frame. -/
def readRef (h : Heap) (r : Nat) : DF :=
  h.getD r emptyDF

/-- Overwrite the frame behind a reference. -/
def writeRef (h : Heap) (r : Nat) (d : DF) : Heap :=
  h.set r d

/-- `df.copy(deep=True)`: a structurally independent copy.  On the pure
value it is the value itself; independence comes from the fresh cell the
constructor puts it in. -/
def copyDeep (d : DF) : DF := d

/-- An in-place mutation of the frame behind a reference (any scrubber
operation, or any direct mutation of the caller's frame). -/
def mutateRef (h : Heap) (r : Nat) (f : DF → DF) : Heap :=
  writeRef h r (f (readRef h r))

namespace DataScrubber

/-- `__init__(df)`: `self.df = df.copy(deep=True)` — allocate a fresh cell
holding a deep copy of the caller's frame and hand the scrubber that
reference. -/
def init (h : Heap) (r : Nat) : Heap × Nat :=
  (h ++ [copyDeep (readRef h r)], h.length)

end DataScrubber

/-! ### Helper lemmas -/

theorem contains_iff (l : List String) (c : String) :
    l.contains c = true ↔ c ∈ l := by
  simp [List.contains]

theorem colIdx_eq_none_iff (l : List String) (c : String) :
    colIdx l c = none ↔ c ∉ l := by
  induction l with
  | nil => simp [colIdx]
  | cons h t ih =>
      by_cases hc : h = c
      · subst hc
        simp [colIdx]
      · simp only [colIdx, if_neg hc, Option.map_eq_none', ih, List.mem_cons]
        constructor
        · intro hn hor
          rcases hor with hor | hor
          · exact hc hor.symm
          · exact hn hor
        · intro hn hmem
          exact hn (Or.inr hmem)

theorem colIdx_isSome_of_mem (l : List String) (c : String) (h : c ∈ l) :
    (colIdx l c).isSome := by
  cases hi : colIdx l c with
  | none => exact absurd h ((colIdx_eq_none_iff l c).mp hi)
  | some i => rfl

theorem mem_dedupSeen (l : List (List Value)) :
    ∀ (seen : List (List Value)) (x : List Value),
      x ∈ dedupSeen seen l ↔ x ∈ l ∧ x ∉ seen := by
  induction l with
  | nil => intro seen x; simp [dedupSeen]
  | cons r rs ih =>
      intro seen x
      by_cases hr : r ∈ seen
      · rw [dedupSeen, if_pos hr, ih]
        simp only [List.mem_cons]
        constructor
        · rintro ⟨hx, hns⟩
          exact ⟨Or.inr hx, hns⟩
        · rintro ⟨hx | hx, hns⟩
          · exact absurd (hx ▸ hr) hns
          · exact ⟨hx, hns⟩
      · rw [dedupSeen, if_neg hr]
        simp only [List.mem_cons, ih, List.mem_cons, not_or]
        constructor
        · rintro (hx | ⟨hx, hne, hns⟩)
          · exact ⟨Or.inl hx, hx ▸ hr⟩
          · exact ⟨Or.inr hx, hns⟩
        · rintro ⟨hx | hx, hns⟩
          · exact Or.inl hx
          · by_cases hxr : x = r
            · exact Or.inl hxr
            · exact Or.inr ⟨hx, hxr, hns⟩

theorem nodup_dedupSeen (l : List (List Value)) :
    ∀ seen : List (List Value), (dedupSeen seen l).Nodup := by
  induction l with
  | nil => intro seen; simp [dedupSeen]
  | cons r rs ih =>
      intro seen
      by_cases hr : r ∈ seen
      · rw [dedupSeen, if_pos hr]; exact ih seen
      · rw [dedupSeen, if_neg hr, List.nodup_cons]
        refine ⟨?_, ih _⟩
        intro hmem
        exact ((mem_dedupSeen rs _ r).mp hmem).2 (List.mem_cons_self r seen)

theorem sublist_dedupSeen (l : List (List Value)) :
    ∀ seen : List (List Value), (dedupSeen seen l).Sublist l := by
  induction l with
  | nil => intro seen; simp [dedupSeen]
  | cons r rs ih =>
      intro seen
      by_cases hr : r ∈ seen
      · rw [dedupSeen, if_pos hr]; exact (ih seen).cons r
      · rw [dedupSeen, if_neg hr]; exact (ih _).cons₂ r

theorem dedupSeen_of_nodup (l : List (List Value)) :
    ∀ seen : List (List Value), l.Nodup → (∀ x ∈ l, x ∉ seen) →
      dedupSeen seen l = l := by
  induction l with
  | nil => intro seen _ _; rfl
  | cons r rs ih =>
      intro seen hnd hout
      rw [dedupSeen, if_neg (hout r (List.mem_cons_self r rs))]
      rw [List.nodup_cons] at hnd
      congr 1
      refine ih _ hnd.2 ?_
      intro x hx
      simp only [List.mem_cons, not_or]
      exact ⟨fun he => hnd.1 (he ▸ hx), hout x (List.mem_cons_of_mem r hx)⟩

theorem dedupRows_idem (l : List (List Value)) :
    dedupRows (dedupRows l) = dedupRows l := by
  refine dedupSeen_of_nodup _ _ (nodup_dedupSeen l []) ?_
  intro x _
  exact List.not_mem_nil x

theorem dedupSeen_eq_removeLaterDups (l : List (List Value)) :
    ∀ seen : List (List Value),
      dedupSeen seen l = removeLaterDups (l.filter (fun x => x ∉ seen)) := by
  induction l with
  | nil => intro seen; simp [dedupSeen, removeLaterDups]
  | cons r rs ih =>
      intro seen
      by_cases hr : r ∈ seen
      · rw [dedupSeen, if_pos hr, List.filter_cons_of_neg (by simpa using hr), ih]
      · rw [dedupSeen, if_neg hr, List.filter_cons_of_pos (by simpa using hr),
          removeLaterDups, List.filter_filter, ih (r :: seen)]
        congr 1
        refine congrArg removeLaterDups (List.filter_congr ?_)
        intro x _
        simp [List.mem_cons, not_or]

theorem dedupRows_eq_removeLaterDups (l : List (List Value)) :
    dedupRows l = removeLaterDups l := by
  rw [dedupRows, dedupSeen_eq_removeLaterDups]
  congr 1
  rw [List.filter_eq_self]
  intro a _
  simp

theorem cellAt_set_self (r : List Value) (i : Nat) (v : Value) (hi : i < r.length) :
    cellAt (r.set i v) i = v := by
  simp [cellAt, List.getD_eq_getElem?_getD, List.getElem?_set_self hi]

theorem cellAt_map (f : Value → Value) (l : List Value) (j : Nat) (hj : j < l.length) :
    cellAt (l.map f) j = f (cellAt l j) := by
  simp [cellAt, List.getD_eq_getElem?_getD, List.getElem?_map,
    List.getElem?_eq_getElem hj]

theorem header_handle_missing (df : DF) (d : Bool) (fv : Option Value) :
    (DataScrubber.handle_missing_data df d fv).header = df.header := by
  cases d <;> cases fv <;> rfl

theorem header_mapColByName (d : DF) (col : String) (f : Value → Value) :
    (mapColByName d col f).header = d.header := by
  unfold mapColByName
  cases colIdx d.header col <;> rfl

theorem header_foldl_mapColByName (f : Value → Value) (cols : List String) :
    ∀ d : DF, (cols.foldl (fun d c => mapColByName d c f) d).header = d.header := by
  induction cols with
  | nil => intro d; rfl
  | cons c cs ih =>
      intro d
      rw [List.foldl_cons, ih, header_mapColByName]

theorem mapColByName_not_mem (d : DF) (col : String) (f : Value → Value)
    (h : col ∉ d.header) : mapColByName d col f = d := by
  unfold mapColByName
  rw [(colIdx_eq_none_iff _ _).mpr h]

theorem mapColByName_eq_some (d : DF) (c : String) (f : Value → Value) (i : Nat)
    (hc : colIdx d.header c = some i) :
    mapColByName d c f = { d with rows := mapRowsAt d.rows i f } := by
  unfold mapColByName
  rw [hc]

theorem mapColByName_eq_none (d : DF) (c : String) (f : Value → Value)
    (hc : colIdx d.header c = none) :
    mapColByName d c f = d := by
  unfold mapColByName
  rw [hc]

theorem colIdx_lt_length (l : List String) (c : String) (i : Nat)
    (h : colIdx l c = some i) : i < l.length := by
  induction l generalizing i with
  | nil => simp [colIdx] at h
  | cons a t ih =>
      rw [colIdx] at h
      by_cases hac : a = c
      · rw [if_pos hac] at h
        cases h
        simp
      · rw [if_neg hac] at h
        rcases ho : colIdx t c with _ | j
        · rw [ho] at h
          simp at h
        · rw [ho] at h
          simp only [Option.map] at h
          cases h
          simpa using Nat.succ_lt_succ (ih j ho)

theorem colIdx_getD (l : List String) (c : String) (i : Nat)
    (h : colIdx l c = some i) : l.getD i "" = c := by
  induction l generalizing i with
  | nil => simp [colIdx] at h
  | cons a t ih =>
      rw [colIdx] at h
      by_cases hac : a = c
      · rw [if_pos hac] at h
        cases h
        simpa using hac
      · rw [if_neg hac] at h
        rcases ho : colIdx t c with _ | j
        · rw [ho] at h
          simp at h
        · rw [ho] at h
          simp only [Option.map] at h
          cases h
          simpa using ih j ho

theorem colIdx_inj_name (l : List String) (c c' : String) (i : Nat)
    (h : colIdx l c = some i) (h' : colIdx l c' = some i) : c = c' := by
  rw [← colIdx_getD l c i h, colIdx_getD l c' i h']

theorem cellAt_set_ne (r : List Value) (j i : Nat) (v : Value) (hij : j ≠ i) :
    cellAt (r.set j v) i = cellAt r i := by
  simp [cellAt, List.getD_eq_getElem?_getD, List.getElem?_set_ne hij]

theorem colCells_mapColByName_self (d : DF) (c : String) (f : Value → Value) (i : Nat)
    (hcol : colIdx d.header c = some i) (hwf : ∀ r ∈ d.rows, i < r.length) :
    colCells (mapColByName d c f) i = (colCells d i).map f := by
  rw [mapColByName_eq_some d c f i hcol]
  unfold colCells mapRowsAt
  rw [List.map_map, List.map_map]
  refine List.map_congr_left ?_
  intro r hr
  simp only [Function.comp]
  exact cellAt_set_self r i _ (hwf r hr)

theorem colCells_mapColByName_ne (d : DF) (c : String) (f : Value → Value) (i : Nat)
    (hne : ∀ j, colIdx d.header c = some j → j ≠ i) :
    colCells (mapColByName d c f) i = colCells d i := by
  rcases hc : colIdx d.header c with _ | j
  · rw [mapColByName_eq_none d c f hc]
  · rw [mapColByName_eq_some d c f j hc]
    unfold colCells mapRowsAt
    rw [List.map_map]
    refine List.map_congr_left ?_
    intro r hr
    simp only [Function.comp]
    exact cellAt_set_ne r j i _ (hne j hc)

theorem lt_length_mapColByName (d : DF) (c : String) (f : Value → Value) (i : Nat)
    (h : ∀ r ∈ d.rows, i < r.length) :
    ∀ r ∈ (mapColByName d c f).rows, i < r.length := by
  rcases hc : colIdx d.header c with _ | j
  · rw [mapColByName_eq_none d c f hc]
    exact h
  · rw [mapColByName_eq_some d c f j hc]
    intro r hr
    simp only [mapRowsAt, List.mem_map] at hr
    obtain ⟨r0, hr0, rfl⟩ := hr
    simpa using h r0 hr0

theorem lowerFold_cons (c : String) (ls : List String) (d : DF) :
    lowerFold (c :: ls) d = lowerFold ls (mapColByName d c lowerTrimVal) := rfl

theorem header_lowerFold (ls : List String) (d : DF) :
    (lowerFold ls d).header = d.header :=
  header_foldl_mapColByName lowerTrimVal ls d

theorem colCells_lowerFold_not_mem (ls : List String) :
    ∀ (d : DF) (col : String) (i : Nat),
      colIdx d.header col = some i → col ∉ ls →
      colCells (lowerFold ls d) i = colCells d i := by
  induction ls with
  | nil => intro d col i _ _; rfl
  | cons c cs ih =>
      intro d col i hcol hnot
      rw [List.mem_cons, not_or] at hnot
      rw [lowerFold_cons]
      have hstep : colCells (mapColByName d c lowerTrimVal) i = colCells d i := by
        refine colCells_mapColByName_ne d c lowerTrimVal i ?_
        intro j hj hji
        subst hji
        exact hnot.1 (colIdx_inj_name d.header col c j hcol hj)
      rw [ih _ col i (by rw [header_mapColByName]; exact hcol) hnot.2, hstep]

theorem colCells_lowerFold_count_one (ls : List String) :
    ∀ (d : DF) (col : String) (i : Nat),
      colIdx d.header col = some i →
      (∀ r ∈ d.rows, i < r.length) →
      ls.count col = 1 →
      colCells (lowerFold ls d) i = (colCells d i).map lowerTrimVal := by
  induction ls with
  | nil => intro d col i _ _ hcnt; simp at hcnt
  | cons c cs ih =>
      intro d col i hcol hwf hcnt
      rw [lowerFold_cons]
      by_cases hceq : c = col
      · subst hceq
        rw [List.count_cons_self] at hcnt
        have hnot : c ∉ cs := List.count_eq_zero.mp (by omega)
        rw [colCells_lowerFold_not_mem cs _ c i
              (by rw [header_mapColByName]; exact hcol) hnot]
        exact colCells_mapColByName_self d c lowerTrimVal i hcol hwf
      · have hcol' : col ≠ c := fun he => hceq he.symm
        rw [List.count_cons_of_ne hcol'] at hcnt
        have hstep : colCells (mapColByName d c lowerTrimVal) i = colCells d i := by
          refine colCells_mapColByName_ne d c lowerTrimVal i ?_
          intro j hj hji
          subst hji
          exact hceq (colIdx_inj_name d.header c col j hj hcol)
        rw [ih _ col i (by rw [header_mapColByName]; exact hcol)
              (lt_length_mapColByName d c lowerTrimVal i hwf) hcnt, hstep]

theorem lowerFold_image_stable (ls : List String) :
    ∀ (d : DF) (i : Nat),
      (∀ r ∈ d.rows, i < r.length) →
      (∀ r ∈ d.rows, ∃ w, cellAt r i = lowerTrimVal w) →
      ∀ r ∈ (lowerFold ls d).rows, ∃ w, cellAt r i = lowerTrimVal w := by
  induction ls with
  | nil => intro d i _ himg; exact himg
  | cons c cs ih =>
      intro d i hwf himg
      rw [lowerFold_cons]
      refine ih _ i (lt_length_mapColByName d c lowerTrimVal i hwf) ?_
      rcases hc : colIdx d.header c with _ | j
      · rw [mapColByName_eq_none d c lowerTrimVal hc]
        exact himg
      · rw [mapColByName_eq_some d c lowerTrimVal j hc]
        intro r hr
        simp only [mapRowsAt, List.mem_map] at hr
        obtain ⟨r0, hr0, rfl⟩ := hr
        by_cases hji : j = i
        · subst hji
          rw [cellAt_set_self r0 j _ (hwf r0 hr0)]
          exact ⟨cellAt r0 j, rfl⟩
        · rw [cellAt_set_ne r0 j i _ hji]
          exact himg r0 hr0

theorem lowerFold_image_of_mem (ls : List String) :
    ∀ (d : DF) (col : String) (i : Nat),
      col ∈ ls → colIdx d.header col = some i →
      (∀ r ∈ d.rows, i < r.length) →
      ∀ r ∈ (lowerFold ls d).rows, ∃ w, cellAt r i = lowerTrimVal w := by
  induction ls with
  | nil => intro d col i hmem _ _; exact absurd hmem (List.not_mem_nil col)
  | cons c cs ih =>
      intro d col i hmem hcol hwf
      rw [lowerFold_cons]
      by_cases hceq : c = col
      · subst hceq
        refine lowerFold_image_stable cs _ i
          (lt_length_mapColByName d c lowerTrimVal i hwf) ?_
        rw [mapColByName_eq_some d c lowerTrimVal i hcol]
        intro r hr
        simp only [mapRowsAt, List.mem_map] at hr
        obtain ⟨r0, hr0, rfl⟩ := hr
        rw [cellAt_set_self r0 i _ (hwf r0 hr0)]
        exact ⟨cellAt r0 i, rfl⟩
      · have hmem' : col ∈ cs := by
          rcases List.mem_cons.mp hmem with he | hm
          · exact absurd he.symm hceq
          · exact hm
        exact ih _ col i hmem' (by rw [header_mapColByName]; exact hcol)
          (lt_length_mapColByName d c lowerTrimVal i hwf)

theorem lowerFold_filter_existing (H : List String) (ls : List String) :
    ∀ d : DF, d.header = H →
      lowerFold ls d = lowerFold (ls.filter (fun c => H.contains c)) d := by
  induction ls with
  | nil => intro d _; rfl
  | cons c cs ih =>
      intro d hd
      by_cases hc : H.contains c = true
      · rw [List.filter_cons_of_pos hc, lowerFold_cons, lowerFold_cons]
        exact ih _ (by rw [header_mapColByName, hd])
      · have hnm : c ∉ d.header := by
          rw [hd]
          intro hmem
          exact hc ((contains_iff H c).mpr hmem)
        rw [List.filter_cons_of_neg hc, lowerFold_cons,
          mapColByName_not_mem d c lowerTrimVal hnm]
        exact ih d hd

theorem le_length_remove_duplicate_records (df : DF) (n : Nat)
    (h : ∀ r ∈ df.rows, n ≤ r.length) :
    ∀ r ∈ (DataScrubber.remove_duplicate_records df).rows, n ≤ r.length := by
  intro r hr
  exact h r ((mem_dedupSeen df.rows [] r).mp hr).1

theorem le_length_handle_missing (d : DF) (b : Bool) (fv : Option Value) (n : Nat)
    (h : ∀ r ∈ d.rows, n ≤ r.length) :
    ∀ r ∈ (DataScrubber.handle_missing_data d b fv).rows, n ≤ r.length := by
  cases b with
  | true =>
      intro r hr
      exact h r (List.mem_filter.mp hr).1
  | false =>
      cases fv with
      | none => exact h
      | some w =>
          intro r hr
          obtain ⟨r0, hr0, rfl⟩ := List.mem_map.mp hr
          simpa using h r0 hr0

theorem readRef_append (h : Heap) (d : DF) (r : Nat) (hr : r < h.length) :
    readRef (h ++ [d]) r = readRef h r := by
  simp [readRef, List.getD_eq_getElem?_getD, List.getElem?_append_left hr]

theorem readRef_append_self (h : Heap) (d : DF) :
    readRef (h ++ [d]) h.length = d := by
  simp [readRef, List.getD_eq_getElem?_getD,
    List.getElem?_append_right (Nat.le_refl h.length)]

theorem readRef_set_ne (h : Heap) (i j : Nat) (d : DF) (hij : i ≠ j) :
    readRef (h.set i d) j = readRef h j := by
  simp [readRef, List.getD_eq_getElem?_getD, List.getElem?_set_ne hij]

/-! ### Concrete frames used to instantiate the theorems -/

/-- One integer column with a null and an out-of-bounds value. -/
def dfA : DF := { header := ["A"], rows := [[.vint 1], [.vnull], [.vint 5]] }

/-- Two integer columns, one row. -/
def dfAB : DF := { header := ["A", "B"], rows := [[.vint 1, .vint 2]] }

/-- Three integer columns, one row. -/
def dfABC : DF := { header := ["A", "B", "C"], rows := [[.vint 1, .vint 2, .vint 3]] }

/-- One string column with surrounding whitespace. -/
def dfName : DF := { header := ["Name"], rows := [[.vstr " Bob "]] }

/-- One column holding a string that does not parse as a date. -/
def dfD : DF := { header := ["D"], rows := [[.vstr "notadate"]] }

/-! ### Claim theorems -/

/-- C1: `__init__` stores `df.copy(deep=True)`: over the heap model the
constructor allocates a fresh reference distinct from the caller's, whose
contents equal the caller's frame, and any later mutation through either
reference is never observable through the other. -/
theorem C1_construction_deep_copy_no_aliasing (h : Heap) (r : Nat)
    (hr : r < h.length) :
    (DataScrubber.init h r).2 ≠ r
    ∧ readRef (DataScrubber.init h r).1 r = readRef h r
    ∧ readRef (DataScrubber.init h r).1 (DataScrubber.init h r).2 = readRef h r
    ∧ (∀ f : DF → DF,
        readRef (mutateRef (DataScrubber.init h r).1 (DataScrubber.init h r).2 f) r
          = readRef h r)
    ∧ (∀ f : DF → DF,
        readRef (mutateRef (DataScrubber.init h r).1 r f) (DataScrubber.init h r).2
          = readRef h r) := by
  have hne : h.length ≠ r := Nat.ne_of_gt hr
  refine ⟨hne, readRef_append h _ r hr, readRef_append_self h _, ?_, ?_⟩
  · intro f
    show readRef ((h ++ [copyDeep (readRef h r)]).set h.length _) r = readRef h r
    rw [readRef_set_ne _ _ _ _ hne, readRef_append h _ r hr]
  · intro f
    show readRef ((h ++ [copyDeep (readRef h r)]).set r _) h.length = readRef h r
    rw [readRef_set_ne _ _ _ _ (Ne.symm hne)]
    exact readRef_append_self h _

/-- C1 witness: a one-frame heap; the scrubber's reference is fresh, and
deduplicating through the scrubber leaves the caller's frame intact. -/
theorem C1_witness :
    (DataScrubber.init [({ header := ["A"], rows := [[.vint 1], [.vint 1]] } : DF)] 0).2 ≠ 0
    ∧ readRef (mutateRef
        (DataScrubber.init [({ header := ["A"], rows := [[.vint 1], [.vint 1]] } : DF)] 0).1
        (DataScrubber.init [({ header := ["A"], rows := [[.vint 1], [.vint 1]] } : DF)] 0).2
        DataScrubber.remove_duplicate_records) 0
      = { header := ["A"], rows := [[.vint 1], [.vint 1]] } := by
  have p := C1_construction_deep_copy_no_aliasing
    [({ header := ["A"], rows := [[.vint 1], [.vint 1]] } : DF)] 0 (by decide)
  exact ⟨p.1, (p.2.2.2.1 DataScrubber.remove_duplicate_records).trans (by decide)⟩

/-- C2 counterexample: on columns `[A, B]` the mapping `A→B` passes the
missing-name check, so the rename succeeds and yields the duplicated
header `[B, B]` instead of failing. -/
theorem C2_counterexample_rename_allows_duplicates :
    DataScrubber.rename_columns dfAB [("A", "B")]
      = .ok { header := ["B", "B"], rows := [[.vint 1, .vint 2]] }
    ∧ ¬ (["B", "B"] : List String).Nodup := by
  constructor
  · decide
  · decide

/-- C2 amended: `rename_columns` fails atomically iff some old name is
missing; when every old name exists it always performs the relabelling,
with no duplicate-name check on the resulting header. -/
theorem C2_amended_rename_no_duplicate_check (df : DF) (m : List (String × String)) :
    ((∀ p ∈ m, p.1 ∈ df.header) →
      DataScrubber.rename_columns df m
        = .ok { df with header := df.header.map (fun n => ((m.lookup n).getD n)) })
    ∧ ((∃ p ∈ m, p.1 ∉ df.header) →
      ∃ c, (∃ w, (c, w) ∈ m) ∧ c ∉ df.header
        ∧ DataScrubber.rename_columns df m = .error (.columnNotFound c)) := by
  constructor
  · intro hall
    have hfind : m.find? (fun p => !(df.header.contains p.1)) = none := by
      rw [List.find?_eq_none]
      intro p hp
      simp [contains_iff, hall p hp]
    unfold DataScrubber.rename_columns
    rw [hfind]
  · rintro ⟨p, hpm, hpn⟩
    rcases hq : m.find? (fun p => !(df.header.contains p.1)) with _ | q
    · rw [List.find?_eq_none] at hq
      exact absurd (by simp [hpn]) (hq p hpm)
    · have h1 := List.find?_some hq
      have h2 := List.mem_of_find?_eq_some hq
      have hqn : q.1 ∉ df.header := by
        intro hmem
        rw [(contains_iff _ _).mpr hmem] at h1
        simp at h1
      refine ⟨q.1, ⟨q.2, by simpa using h2⟩, hqn, ?_⟩
      unfold DataScrubber.rename_columns
      rw [hq]

/-- C2 witness for the amended claim: a rename with every old name
present relabels the header. -/
theorem C2_amended_witness :
    DataScrubber.rename_columns dfAB [("A", "Z")]
      = .ok { header := ["Z", "B"], rows := [[.vint 1, .vint 2]] } := by
  have h := (C2_amended_rename_no_duplicate_check dfAB [("A", "Z")]).1 (by decide)
  rw [h]
  decide

/-- C3: with the column present, holding only integers or nulls, and
inclusive bounds `lo ≤ hi`, `filter_column_outliers` succeeds and retains
exactly the rows whose cell in that column is an integer within the
bounds; in particular every null cell's row is dropped. -/
theorem C3_filter_outliers_exact (df : DF) (column : String) (i : Nat)
    (lower_bound upper_bound : Int)
    (hcol : colIdx df.header column = some i)
    (hb : lower_bound ≤ upper_bound)
    (hty : ∀ r ∈ df.rows, (isNullV (cellAt r i) || isIntV (cellAt r i)) = true) :
    ∃ df', DataScrubber.filter_column_outliers df column lower_bound upper_bound = .ok df'
      ∧ df'.header = df.header
      ∧ df'.rows.Sublist df.rows
      ∧ (∀ r ∈ df.rows,
          (r ∈ df'.rows ↔ ∃ n : Int, cellAt r i = .vint n
            ∧ lower_bound ≤ n ∧ n ≤ upper_bound))
      ∧ (∀ r ∈ df.rows, cellAt r i = .vnull → r ∉ df'.rows) := by
  unfold DataScrubber.filter_column_outliers
  rw [hcol]
  refine ⟨_, rfl, rfl, List.filter_sublist _, ?_, ?_⟩
  · intro r hr
    simp only [List.mem_filter, Bool.and_eq_true]
    constructor
    · rintro ⟨-, hge, hle⟩
      cases hcell : cellAt r i with
      | vint n =>
          rw [hcell] at hge hle
          exact ⟨n, rfl, by simpa [cmpGe] using hge, by simpa [cmpLe] using hle⟩
      | vnull => rw [hcell] at hge; simp [cmpGe] at hge
      | vstr s => rw [hcell] at hge; simp [cmpGe] at hge
      | vdate d => rw [hcell] at hge; simp [cmpGe] at hge
    · rintro ⟨n, hcell, h1, h2⟩
      exact ⟨hr, by simp [cmpGe, hcell, h1], by simp [cmpLe, hcell, h2]⟩
  · intro r hr hnull hmem
    rw [List.mem_filter, Bool.and_eq_true] at hmem
    rcases hmem with ⟨-, hp, -⟩
    rw [hnull] at hp
    simp [cmpGe] at hp

/-- C3 witness: bounds `[0, 3]` on a column with values 1, null, 5 keep
only the row with value 1. -/
theorem C3_witness :
    (DataScrubber.filter_column_outliers dfA "A" 0 3).isOk = true := by
  obtain ⟨df', heq, -, -, -, -⟩ :=
    C3_filter_outliers_exact dfA "A" 0 0 3 (by decide) (by decide) (by decide)
  rw [heq]
  rfl

/-- C4: `drop_columns` checks every named column before mutating: with any
named column missing it leaves the frame unchanged and reports
`ColumnNotFoundError`; with all present it removes exactly the named
columns, preserving the order of the rest. -/
theorem C4_drop_columns_atomic (df : DF) (columns : List String) :
    ((∃ c ∈ columns, c ∉ df.header) →
      ∃ c, c ∈ columns ∧ c ∉ df.header
        ∧ DataScrubber.drop_columns df columns = (df, some (.columnNotFound c)))
    ∧ ((∀ c ∈ columns, c ∈ df.header) →
      ∃ df', DataScrubber.drop_columns df columns = (df', none)
        ∧ df'.header = df.header.filter (fun n => !(columns.contains n))
        ∧ (∀ c, c ∈ df'.header ↔ c ∈ df.header ∧ c ∉ columns)
        ∧ df'.header.Sublist df.header) := by
  constructor
  · rintro ⟨c0, hc0m, hc0n⟩
    rcases hq : columns.find? (fun c => !(df.header.contains c)) with _ | q
    · rw [List.find?_eq_none] at hq
      exact absurd (by simp [hc0n]) (hq c0 hc0m)
    · have h1 := List.find?_some hq
      have h2 := List.mem_of_find?_eq_some hq
      have hqn : q ∉ df.header := by
        intro hmem
        rw [(contains_iff _ _).mpr hmem] at h1
        simp at h1
      refine ⟨q, h2, hqn, ?_⟩
      unfold DataScrubber.drop_columns
      rw [hq]
  · intro hall
    have hfind : columns.find? (fun c => !(df.header.contains c)) = none := by
      rw [List.find?_eq_none]
      intro c hc
      simp [contains_iff, hall c hc]
    have heq : DataScrubber.drop_columns df columns
        = ({ header := df.header.filter (fun n => !(columns.contains n)),
             rows := df.rows.map (fun r =>
               ((df.header.zip r).filter (fun p => !(columns.contains p.1))).map
                 Prod.snd) }, none) := by
      unfold DataScrubber.drop_columns
      rw [hfind]
    refine ⟨_, heq, rfl, ?_, List.filter_sublist _⟩
    intro c
    simp only [List.mem_filter, Bool.not_eq_true']
    constructor
    · rintro ⟨hmem, hcn⟩
      refine ⟨hmem, fun hcc => ?_⟩
      rw [(contains_iff _ _).mpr hcc] at hcn
      exact Bool.noConfusion hcn
    · rintro ⟨hmem, hcn⟩
      refine ⟨hmem, ?_⟩
      cases hcb : columns.contains c with
      | false => rfl
      | true => exact absurd ((contains_iff _ _).mp hcb) hcn

/-- C4 witness: dropping the absent column `Missing` fails and leaves the
frame unchanged. -/
theorem C4_witness :
    DataScrubber.drop_columns dfAB ["Missing"]
      = (dfAB, some (.columnNotFound "Missing")) := by
  obtain ⟨c, hcm, -, heq⟩ :=
    (C4_drop_columns_atomic dfAB ["Missing"]).1 ⟨"Missing", by decide, by decide⟩
  rw [List.mem_singleton] at hcm
  subst hcm
  exact heq

/-- C5: the post-cleaning consistency check never mutates the frame,
returns the null-count/duplicate snapshot exactly when both totals are
zero, and otherwise fails with a `DataIntegrityError`. -/
theorem C5_assert_clean_exact (df : DF) :
    (DataScrubber.check_data_consistency_after_cleaning df).1 = df
    ∧ ((DataScrubber.check_data_consistency_after_cleaning df).2
          = .ok (nullCountsOf df, dupCount df.rows)
        ↔ ((nullCountsOf df).sum = 0 ∧ dupCount df.rows = 0))
    ∧ (((nullCountsOf df).sum ≠ 0 ∨ dupCount df.rows ≠ 0) →
        ∃ msg, (DataScrubber.check_data_consistency_after_cleaning df).2
          = .error (.dataIntegrity msg)) := by
  unfold DataScrubber.check_data_consistency_after_cleaning
  by_cases h1 : (nullCountsOf df).sum = 0
  · by_cases h2 : dupCount df.rows = 0
    · rw [if_neg (fun hne => hne h1), if_neg (fun hne => hne h2)]
      refine ⟨rfl, by simp [h1, h2], ?_⟩
      rintro (hc | hc)
      · exact absurd h1 hc
      · exact absurd h2 hc
    · rw [if_neg (fun hne => hne h1), if_pos h2]
      refine ⟨rfl, ?_, fun _ => ⟨_, rfl⟩⟩
      constructor
      · intro heq
        exact Except.noConfusion heq
      · rintro ⟨-, hz⟩
        exact absurd hz h2
  · rw [if_pos h1]
    refine ⟨rfl, ?_, fun _ => ⟨_, rfl⟩⟩
    constructor
    · intro heq
      exact Except.noConfusion heq
    · rintro ⟨hz, -⟩
      exact absurd hz h1

/-- C5 witness: on a clean frame the check returns the snapshot. -/
theorem C5_witness :
    (DataScrubber.check_data_consistency_after_cleaning dfAB).2
      = .ok (nullCountsOf dfAB, dupCount dfAB.rows) :=
  (C5_assert_clean_exact dfAB).2.1.mpr (by decide)

/-- C6: `remove_duplicate_records` keeps the first occurrence of each row
in original order (equivalently: removes the later exact copies of every
row), keeps every distinct row, leaves the column structure unchanged,
and is idempotent. -/
theorem C6_remove_duplicates_first_occurrence_idem (df : DF) :
    (DataScrubber.remove_duplicate_records df).header = df.header
    ∧ (DataScrubber.remove_duplicate_records df).rows = removeLaterDups df.rows
    ∧ (DataScrubber.remove_duplicate_records df).rows.Nodup
    ∧ (∀ r ∈ df.rows, r ∈ (DataScrubber.remove_duplicate_records df).rows)
    ∧ (DataScrubber.remove_duplicate_records df).rows.Sublist df.rows
    ∧ DataScrubber.remove_duplicate_records (DataScrubber.remove_duplicate_records df)
        = DataScrubber.remove_duplicate_records df := by
  refine ⟨rfl, dedupRows_eq_removeLaterDups df.rows, nodup_dedupSeen df.rows [],
    ?_, sublist_dedupSeen df.rows [], ?_⟩
  · intro r hr
    exact (mem_dedupSeen df.rows [] r).mpr ⟨hr, List.not_mem_nil r⟩
  · show ({ header := df.header, rows := dedupRows (dedupRows df.rows) } : DF) = _
    rw [dedupRows_idem]
    rfl

/-- Shape of `clean_data` when only deduplication, missing-data handling
and the lowercase step are exercised: it is the fold of the
skip-on-missing lowercase step over the listed columns, applied after the
first two steps. -/
theorem clean_data_lower_shape (df : DF) (dd : Bool) (fv : Option Value)
    (string_lower : List String) :
    DataScrubber.clean_data df dd false fv string_lower [] [] []
      = lowerFold string_lower
          (DataScrubber.handle_missing_data
            (if dd then DataScrubber.remove_duplicate_records df else df) false fv) := by
  cases fv <;> rfl

/-- C7: for every table and every list passed as the lowercase argument,
the composite clean's lowercase step is skip-on-missing: the call equals
the same call on the sublist of listed columns that exist (so absent
listed columns have no effect and raise no error), the header is
unchanged, every listed column that exists ends up with every cell an
output of the lowercase-trim cell function (a lowercased and trimmed
string), a column listed exactly once is mapped cell-by-cell by that
function, and unlisted columns are untouched. -/
theorem C7_clean_lowercase_skip_policy (df : DF) (dd : Bool) (fv : Option Value)
    (string_lower : List String)
    (hwf : ∀ r ∈ df.rows, df.header.length ≤ r.length) :
    (DataScrubber.clean_data df dd false fv string_lower [] [] []).header = df.header
    ∧ DataScrubber.clean_data df dd false fv string_lower [] [] []
        = DataScrubber.clean_data df dd false fv
            (string_lower.filter (fun c => df.header.contains c)) [] [] []
    ∧ (∀ col i, col ∈ string_lower → colIdx df.header col = some i →
        ∀ r ∈ (DataScrubber.clean_data df dd false fv string_lower [] [] []).rows,
          ∃ w, cellAt r i = lowerTrimVal w)
    ∧ (∀ col i, colIdx df.header col = some i → string_lower.count col = 1 →
        colCells (DataScrubber.clean_data df dd false fv string_lower [] [] []) i
          = (colCells (DataScrubber.handle_missing_data
              (if dd then DataScrubber.remove_duplicate_records df else df) false fv)
              i).map lowerTrimVal)
    ∧ (∀ col i, colIdx df.header col = some i → col ∉ string_lower →
        colCells (DataScrubber.clean_data df dd false fv string_lower [] [] []) i
          = colCells (DataScrubber.handle_missing_data
              (if dd then DataScrubber.remove_duplicate_records df else df) false fv)
              i) := by
  have hbh : (DataScrubber.handle_missing_data
      (if dd then DataScrubber.remove_duplicate_records df else df) false fv).header
      = df.header := by
    rw [header_handle_missing]
    cases dd <;> rfl
  have hbwf : ∀ r ∈ (DataScrubber.handle_missing_data
      (if dd then DataScrubber.remove_duplicate_records df else df) false fv).rows,
      df.header.length ≤ r.length := by
    refine le_length_handle_missing _ false fv df.header.length ?_
    cases dd with
    | true => exact le_length_remove_duplicate_records df df.header.length hwf
    | false => exact hwf
  refine ⟨?_, ?_, ?_, ?_, ?_⟩
  · rw [clean_data_lower_shape, header_lowerFold, hbh]
  · rw [clean_data_lower_shape, clean_data_lower_shape]
    exact lowerFold_filter_existing df.header string_lower _ hbh
  · intro col i hmem hcol
    rw [clean_data_lower_shape]
    refine lowerFold_image_of_mem string_lower _ col i hmem (by rw [hbh]; exact hcol) ?_
    intro r hr
    exact Nat.lt_of_lt_of_le (colIdx_lt_length df.header col i hcol) (hbwf r hr)
  · intro col i hcol hcnt
    rw [clean_data_lower_shape]
    refine colCells_lowerFold_count_one string_lower _ col i
      (by rw [hbh]; exact hcol) ?_ hcnt
    intro r hr
    exact Nat.lt_of_lt_of_le (colIdx_lt_length df.header col i hcol) (hbwf r hr)
  · intro col i hcol hnot
    rw [clean_data_lower_shape]
    exact colCells_lowerFold_not_mem string_lower _ col i (by rw [hbh]; exact hcol) hnot

/-- C7 witness at the spec's mixed scenario: cleaning with the lowercase
list `["Name", "Ghost"]` on a table having `Name` but not `Ghost`
lowercases and trims `Name` and skips `Ghost` without error. -/
theorem C7_witness :
    DataScrubber.clean_data dfName false false none ["Name", "Ghost"] [] [] []
      = { header := ["Name"], rows := [[.vstr "bob"]] } := by
  have h := (C7_clean_lowercase_skip_policy dfName false none ["Name", "Ghost"]
    (by decide)).2.1
  rw [h]
  decide

/-- C8: `reorder_columns` with all listed names present yields exactly the
listed columns in the listed order (unlisted columns dropped, row count
kept), and fails with `ColumnNotFoundError` when some listed name is
absent. -/
theorem C8_reorder_exact (df : DF) (columns : List String) :
    ((∀ c ∈ columns, c ∈ df.header) →
      ∃ df', DataScrubber.reorder_columns df columns = .ok df'
        ∧ df'.header = columns
        ∧ df'.rows.length = df.rows.length)
    ∧ ((∃ c ∈ columns, c ∉ df.header) →
      ∃ c, c ∈ columns ∧ c ∉ df.header
        ∧ DataScrubber.reorder_columns df columns = .error (.columnNotFound c)) := by
  constructor
  · intro hall
    have hfind : columns.find? (fun c => !(df.header.contains c)) = none := by
      rw [List.find?_eq_none]
      intro c hc
      simp [contains_iff, hall c hc]
    have heq : DataScrubber.reorder_columns df columns
        = .ok { header := columns,
                rows := df.rows.map (fun r => columns.map (fun c =>
                  match colIdx df.header c with
                  | some i => cellAt r i
                  | none => .vnull)) } := by
      unfold DataScrubber.reorder_columns
      rw [hfind]
    exact ⟨_, heq, rfl, by simp⟩
  · rintro ⟨c0, hc0m, hc0n⟩
    rcases hq : columns.find? (fun c => !(df.header.contains c)) with _ | q
    · rw [List.find?_eq_none] at hq
      exact absurd (by simp [hc0n]) (hq c0 hc0m)
    · have h1 := List.find?_some hq
      have h2 := List.mem_of_find?_eq_some hq
      have hqn : q ∉ df.header := by
        intro hmem
        rw [(contains_iff _ _).mpr hmem] at h1
        simp at h1
      refine ⟨q, h2, hqn, ?_⟩
      unfold DataScrubber.reorder_columns
      rw [hq]

/-- C8 witness: reordering `[A, B, C]` to `["B", "A"]` succeeds. -/
theorem C8_witness :
    (DataScrubber.reorder_columns dfABC ["B", "A"]).isOk = true := by
  obtain ⟨df', heq, -, -⟩ := (C8_reorder_exact dfABC ["B", "A"]).1 (by decide)
  rw [heq]
  rfl

/-- C9: `format_column_strings_to_upper_and_trim` stringifies every cell
first, so afterwards the column contains no null entries and every
previously null cell holds the literal string "NAN"; the cell function of
the composite clean's lowercase step likewise turns a null into the
literal string "nan". -/
theorem C9_upper_trim_eliminates_nulls (df : DF) (column : String) (i : Nat)
    (hcol : colIdx df.header column = some i)
    (hwf : ∀ r ∈ df.rows, i < r.length) :
    ∃ df', DataScrubber.format_column_strings_to_upper_and_trim df column = .ok df'
      ∧ df'.header = df.header
      ∧ colCells df' i = (colCells df i).map upperTrimVal
      ∧ (colCells df' i).countP isNullV = 0
      ∧ (∀ j, j < df.rows.length → cellAt (colCells df i) j = .vnull →
          cellAt (colCells df' i) j = .vstr "NAN")
      ∧ lowerTrimVal .vnull = .vstr "nan" := by
  have heq : DataScrubber.format_column_strings_to_upper_and_trim df column
      = .ok { df with rows := mapRowsAt df.rows i upperTrimVal } := by
    unfold DataScrubber.format_column_strings_to_upper_and_trim
    rw [hcol]
  have hcells : colCells { df with rows := mapRowsAt df.rows i upperTrimVal } i
      = (colCells df i).map upperTrimVal := by
    unfold colCells mapRowsAt
    rw [List.map_map, List.map_map]
    refine List.map_congr_left ?_
    intro r hr
    simp only [Function.comp]
    exact cellAt_set_self r i _ (hwf r hr)
  refine ⟨_, heq, rfl, hcells, ?_, ?_, by decide⟩
  · rw [hcells, List.countP_map, List.countP_eq_zero]
    intro v _
    simp [Function.comp, upperTrimVal, isNullV]
  · intro j hj hnull
    have hj' : j < (colCells df i).length := by
      simpa [colCells] using hj
    rw [hcells, cellAt_map _ _ _ hj', hnull]
    decide

/-- C9 witness: uppercasing a column holding a single null makes it the
string "NAN". -/
theorem C9_witness :
    (DataScrubber.format_column_strings_to_upper_and_trim
      ({ header := ["A"], rows := [[.vnull]] } : DF) "A").isOk = true := by
  obtain ⟨df', heq, -, -, -, -, -⟩ :=
    C9_upper_trim_eliminates_nulls ⟨["A"], [[.vnull]]⟩ "A" 0 (by decide) (by decide)
  rw [heq]
  rfl

/-- C10: date-parsing asymmetry — the standalone
`parse_dates_to_add_standard_datetime` raises on an input holding an
unparsable value (the string "notadate"), while inside `clean_data` the
listed date columns are coerced cell-by-cell by the total function
`coerceDateV`, under which an unparsable cell becomes the null marker, so
the composite call never raises. -/
theorem C10_date_parse_asymmetry (df : DF) (column : String) :
    DataScrubber.parse_dates_to_add_standard_datetime dfD "D"
      = .error (.conversionError "D")
    ∧ DataScrubber.clean_data df false false none [] [] [column] []
      = mapColByName df column coerceDateV
    ∧ coerceDateV (.vstr "notadate") = .vnull
    ∧ DataScrubber.clean_data dfD false false none [] [] ["D"] []
      = { header := ["D"], rows := [[.vnull]] } := by
  exact ⟨by decide, rfl, by decide, by decide⟩
